import Mathlib

/-!
Verification of `src/operation/relateng/RelateSegmentString.cpp` (GEOS relate
engine segment string).  The walk's backing coordinate sequence is embedded as
a `List Point` with exact integer coordinates; `equals2D` is plain equality.
Sequence collaborators (indexing, closed predicate, ring navigation, repeated
point detection and removal, orientation) are not part of the shown source and
are modelled from the specification.
-/

namespace GeosRelate

/-- A 2D coordinate with exact arithmetic; `equals2D` is equality on the pair. -/
abbrev Point := Int × Int

/-- Modelled from the spec: the modulus of `std::size_t` index arithmetic
(64-bit machine word), `2 ^ 64`. -/
def WORD : Nat := 18446744073709551616

/-- Modelled from the spec: the sentinel "unknown index" magic constant used to
flag the degenerate 2-point-walk special case, `size_t(-1) = 2 ^ 64 - 1`. -/
def INDEX_UNKNOWN : Nat := 18446744073709551615

/-- Modelled from the spec: indexed coordinate access of the base sequence. -/
def getCoordinate (ps : List Point) (i : Nat) : Point := ps.getD i (0, 0)

/-- Modelled from the spec: the closed/open predicate of the base sequence —
closed means the first point equals the last. -/
def isClosed (ps : List Point) : Bool :=
  decide (getCoordinate ps 0 = getCoordinate ps (ps.length - 1))

/-- Modelled from the spec: ring-aware lookup of the vertex immediately before
index `i`, wrapping across the closing point (the vertex before index 0 is the
second-to-last vertex, since first and last coincide). -/
def prevInRing (ps : List Point) (i : Nat) : Point :=
  if i = 0 then getCoordinate ps (ps.length - 2) else getCoordinate ps (i - 1)

/-- Modelled from the spec: ring-aware lookup of the vertex immediately after
index `i`, wrapping across the closing point (the vertex after the last index
is index 1, since first and last coincide). -/
def nextInRing (ps : List Point) (i : Nat) : Point :=
  if i + 1 > ps.length - 1 then getCoordinate ps 1 else getCoordinate ps (i + 1)

/-- Modelled from the spec: whether any two consecutive points of the sequence
are coordinate-equal (`CoordinateSequence::hasRepeatedPoints`). -/
def hasRepeatedPoints : List Point → Bool
  | p :: q :: rest => p == q || hasRepeatedPoints (q :: rest)
  | _ => false

/-- Modelled from the spec: collapse runs of consecutive coordinate-equal
points to a single point (`RepeatedPointRemover::removeRepeatedPoints`). -/
def removeRepeatedPoints : List Point → List Point
  | [] => []
  | [p] => [p]
  | p :: q :: rest =>
      if p = q then removeRepeatedPoints (q :: rest)
      else p :: removeRepeatedPoints (q :: rest)

/-- Modelled from the spec: twice the signed area of the walk (shoelace sum
over consecutive vertex pairs), the winding measure behind `Orientation::isCCW`. -/
def signedArea2 (ps : List Point) : Int :=
  (List.range (ps.length - 1)).foldl
    (fun acc i =>
      acc + ((getCoordinate ps i).1 * (getCoordinate ps (i + 1)).2
           - (getCoordinate ps (i + 1)).1 * (getCoordinate ps i).2)) 0

/-- Modelled from the spec: counter-clockwise orientation, computed from the
signed area / winding (`Orientation::isCCW`). -/
def isCCW (ps : List Point) : Bool := decide (0 < signedArea2 ps)

/-- The relate vertex walk: relate-specific context plus the active backing
sequence (`RelateSegmentString`, data members). -/
structure RelateSegmentString where
  m_isA : Bool
  m_dimension : Int
  m_id : Int
  m_ringId : Int
  m_parentPolygonal : Option Nat
  seq : List Point

/-- Modelled from the spec: the node-section value object — context copied from
the walk, the vertex-coincidence flag, and the point with its two neighbors
(`NodeSection`). -/
structure NodeSection where
  isA : Bool
  dim : Int
  id : Int
  ringId : Int
  parentPolygonal : Option Nat
  isNodeAtVertex : Bool
  prev : Option Point
  pt : Point
  next : Option Point

/-- `RelateSegmentString::prevVertex` (source lines 116-132): walk-neighbor of
`pt` in the backward direction along segment `segIndex`. -/
def prevVertex (ps : List Point) (segIndex : Nat) (pt : Point) : Option Point :=
  if pt ≠ getCoordinate ps segIndex then some (getCoordinate ps segIndex)
  else if segIndex > 0 then some (getCoordinate ps (segIndex - 1))
  else if isClosed ps = true then some (prevInRing ps segIndex)
  else none

/-- `RelateSegmentString::nextVertex` (source lines 137-159): walk-neighbor of
`pt` in the forward direction along segment `segIndex`.  The index arithmetic
`segIndex + 1` and `segIndex + 2` is `size_t` arithmetic, hence the `% WORD`. -/
def nextVertex (ps : List Point) (segIndex : Nat) (pt : Point) : Option Point :=
  if pt ≠ getCoordinate ps ((segIndex + 1) % WORD) then
    some (getCoordinate ps ((segIndex + 1) % WORD))
  else if ps.length = 2 ∧ segIndex = INDEX_UNKNOWN then some (getCoordinate ps 0)
  else if segIndex < ps.length - 2 then some (getCoordinate ps ((segIndex + 2) % WORD))
  else if isClosed ps = true then some (nextInRing ps ((segIndex + 1) % WORD))
  else none

/-- `RelateSegmentString::isContainingSegment` (source lines 164-180): whether
segment `segIndex` owns the intersection at `pt`. -/
def isContainingSegment (ps : List Point) (segIndex : Nat) (pt : Point) : Bool :=
  if pt = getCoordinate ps segIndex then true
  else if pt = getCoordinate ps ((segIndex + 1) % WORD) then
    (if isClosed ps = true ∨ segIndex ≠ ps.length - 2 then false else true)
  else true

/-- `RelateSegmentString::createNodeSection` (source lines 102-111): package
the local topology at intersection point `intPt` on segment `segIndex`. -/
def createNodeSection (s : RelateSegmentString) (segIndex : Nat) (intPt : Point) :
    NodeSection :=
  { isA := s.m_isA
    dim := s.m_dimension
    id := s.m_id
    ringId := s.m_ringId
    parentPolygonal := s.m_parentPolygonal
    isNodeAtVertex :=
      decide (intPt = getCoordinate s.seq segIndex ∨
        intPt = getCoordinate s.seq ((segIndex + 1) % WORD))
    prev := prevVertex s.seq segIndex intPt
    pt := intPt
    next := nextVertex s.seq segIndex intPt }

/-- `RelateSegmentString::orientAndRemoveRepeated` (source lines 185-206),
translated statement by statement: `csStore` is assigned by the `hasRepeated`
block and then, when `isFlipped` also holds, reassigned by the `isFlipped`
block to a reversed clone of the original `seq`. -/
def orientAndRemoveRepeated (orientCW : Bool) (seq : List Point) : List Point :=
  let isFlipped : Bool := orientCW == isCCW seq
  let hasRep : Bool := hasRepeatedPoints seq
  if !isFlipped && !hasRep then seq
  else
    let csStore0 : List Point :=
      if hasRep then
        (if isFlipped then (removeRepeatedPoints seq).reverse
         else removeRepeatedPoints seq)
      else []
    let csStore1 : List Point := if isFlipped then seq.reverse else csStore0
    csStore1

/-- `RelateSegmentString::removeRepeated` (source lines 210-217). -/
def removeRepeated (seq : List Point) : List Point :=
  if !(hasRepeatedPoints seq) then seq else removeRepeatedPoints seq

/-- Total claim tally for a query point `v` over a walk: across every segment
and both endpoint queries of each segment, the number of (segment, endpoint)
pairs whose query point equals `v` and which `isContainingSegment` claims. -/
def claimCount (ps : List Point) (v : Point) : Nat :=
  ∑ i ∈ Finset.range (ps.length - 1),
    ((if getCoordinate ps i = v ∧
          isContainingSegment ps i (getCoordinate ps i) = true then 1 else 0) +
     (if getCoordinate ps (i + 1) = v ∧
          isContainingSegment ps i (getCoordinate ps (i + 1)) = true then 1 else 0))

/-- C1: evaluation of `orientAndRemoveRepeated true` on the square ring with a
leading duplicate.  The code produces the reversed original with the duplicate
still present (6 points), not the 5-point deduplicated clockwise ring the
specification expects: the `isFlipped` block overwrites the deduplicated
sequence with a reversed clone of the original. -/
theorem c1_square_ring_keeps_duplicate :
    orientAndRemoveRepeated true
        [((0 : Int), (0 : Int)), (0, 0), (10, 0), (10, 10), (0, 10), (0, 0)]
      = [((0 : Int), (0 : Int)), (0, 10), (10, 10), (10, 0), (0, 0), (0, 0)] ∧
    orientAndRemoveRepeated true
        [((0 : Int), (0 : Int)), (0, 0), (10, 0), (10, 10), (0, 10), (0, 0)]
      ≠ [((0 : Int), (0 : Int)), (0, 10), (10, 10), (10, 0), (0, 0)] := by
  constructor
  · decide
  · decide

/-- C2: `orientAndRemoveRepeated` with a fixed target is not idempotent on the
square ring with a leading duplicate: the first call leaves the duplicate in
place (reversed original), so the second call still removes repeated points. -/
theorem c2_orient_not_idempotent :
    orientAndRemoveRepeated true
        (orientAndRemoveRepeated true
          [((0 : Int), (0 : Int)), (0, 0), (10, 0), (10, 10), (0, 10), (0, 0)])
      ≠ orientAndRemoveRepeated true
          [((0 : Int), (0 : Int)), (0, 0), (10, 0), (10, 10), (0, 10), (0, 0)] := by
  decide

/-- C7: on the open line [(0,0),(5,0),(10,0)], `createNodeSection 0 (5,0)`
reports a node at a vertex with previous neighbor (0,0) and next neighbor
(10,0). -/
theorem c7_createNodeSection_open_line :
    (createNodeSection
        ⟨true, 1, 0, 0, none, [((0 : Int), (0 : Int)), (5, 0), (10, 0)]⟩
        0 (5, 0)).isNodeAtVertex = true ∧
    (createNodeSection
        ⟨true, 1, 0, 0, none, [((0 : Int), (0 : Int)), (5, 0), (10, 0)]⟩
        0 (5, 0)).prev = some (0, 0) ∧
    (createNodeSection
        ⟨true, 1, 0, 0, none, [((0 : Int), (0 : Int)), (5, 0), (10, 0)]⟩
        0 (5, 0)).pt = (5, 0) ∧
    (createNodeSection
        ⟨true, 1, 0, 0, none, [((0 : Int), (0 : Int)), (5, 0), (10, 0)]⟩
        0 (5, 0)).next = some (10, 0) := by
  refine ⟨?_, ?_, rfl, ?_⟩ <;> decide

/-- C10: the start-vertex branch of `isContainingSegment` is unconditional, so
on a walk with a zero-length segment (a consecutive duplicate at index `j`)
both the segment starting at the duplicate and the following segment claim the
duplicated point. -/
theorem c10_start_vertex_precedence (ps : List Point) (i j : Nat) (pt : Point)
    (hpt : pt = getCoordinate ps i)
    (hdup : getCoordinate ps j = getCoordinate ps (j + 1)) :
    isContainingSegment ps i pt = true ∧
    isContainingSegment ps j (getCoordinate ps j) = true ∧
    isContainingSegment ps (j + 1) (getCoordinate ps j) = true := by
  refine ⟨?_, ?_, ?_⟩
  · unfold isContainingSegment
    rw [if_pos hpt]
  · unfold isContainingSegment
    rw [if_pos rfl]
  · unfold isContainingSegment
    rw [if_pos hdup]

/-- C10 witness: on [(0,0),(0,0),(1,0)] both segment 0 and segment 1 claim the
duplicated point (0,0). -/
theorem c10_witness :
    isContainingSegment [((0 : Int), (0 : Int)), (0, 0), (1, 0)] 0 (0, 0) = true ∧
    isContainingSegment [((0 : Int), (0 : Int)), (0, 0), (1, 0)] 0
      (getCoordinate [((0 : Int), (0 : Int)), (0, 0), (1, 0)] 0) = true ∧
    isContainingSegment [((0 : Int), (0 : Int)), (0, 0), (1, 0)] 1
      (getCoordinate [((0 : Int), (0 : Int)), (0, 0), (1, 0)] 0) = true :=
  c10_start_vertex_precedence _ 0 0 (0, 0) (by decide) (by decide)

/-- C3: case analysis of `isContainingSegment` — a point at the segment start
is always claimed, a point equal to neither endpoint is always claimed, and a
point at the segment end (and not at the start) is claimed exactly when the
walk is open and the segment is the final one. -/
theorem c3_isContainingSegment_cases (ps : List Point) (segIndex : Nat) (pt : Point)
    (hseg : segIndex + 2 ≤ ps.length) (hw : ps.length < WORD) :
    (pt = getCoordinate ps segIndex → isContainingSegment ps segIndex pt = true) ∧
    (pt ≠ getCoordinate ps segIndex → pt ≠ getCoordinate ps (segIndex + 1) →
      isContainingSegment ps segIndex pt = true) ∧
    (pt ≠ getCoordinate ps segIndex → pt = getCoordinate ps (segIndex + 1) →
      (isContainingSegment ps segIndex pt = true ↔
        isClosed ps = false ∧ segIndex = ps.length - 2)) := by
  have hww : WORD = 18446744073709551616 := rfl
  have hmod : (segIndex + 1) % WORD = segIndex + 1 := Nat.mod_eq_of_lt (by omega)
  refine ⟨?_, ?_, ?_⟩
  · intro h
    unfold isContainingSegment
    rw [if_pos h]
  · intro h1 h2
    unfold isContainingSegment
    rw [if_neg h1, hmod, if_neg h2]
  · intro h1 h2
    unfold isContainingSegment
    rw [if_neg h1, hmod, if_pos h2]
    by_cases h3 : isClosed ps = true ∨ segIndex ≠ ps.length - 2
    · rw [if_pos h3]
      refine ⟨fun h => absurd h (by simp), ?_⟩
      rintro ⟨hOpen, hFin⟩
      rcases h3 with h3 | h3
      · rw [hOpen] at h3
        exact absurd h3 (by simp)
      · exact absurd hFin h3
    · rw [if_neg h3]
      push_neg at h3
      exact ⟨fun _ => ⟨by simpa using h3.1, h3.2⟩, fun _ => rfl⟩

/-- C3 witness: on the 2-point open line [(0,0),(1,0)], the single segment
claims the terminal end vertex (1,0). -/
theorem c3_witness :
    isContainingSegment [((0 : Int), (0 : Int)), (1, 0)] 0 (1, 0) = true :=
  ((c3_isContainingSegment_cases [((0 : Int), (0 : Int)), (1, 0)] 0 (1, 0)
      (by decide) (by decide)).2.2 (by decide) (by decide)).mpr (by decide)

/-- C6: the wrap-to-vertex-0 branch of `nextVertex` fires only for the
explicit sentinel index: with the sentinel on a 2-point walk the result wraps
to vertex 0, while with the actual segment index 0 and the point at the end
vertex the result is absent on an open walk. -/
theorem c6_sentinel_only (ps : List Point) (pt : Point)
    (hlen : ps.length = 2) (hopen : isClosed ps = false) :
    nextVertex ps INDEX_UNKNOWN pt = some (getCoordinate ps 0) ∧
    (pt = getCoordinate ps 1 → nextVertex ps 0 pt = none) := by
  constructor
  · unfold nextVertex
    have hmod : (INDEX_UNKNOWN + 1) % WORD = 0 := by decide
    rw [hmod]
    by_cases h : pt = getCoordinate ps 0
    · rw [if_neg (not_not_intro h), if_pos ⟨hlen, rfl⟩]
    · rw [if_pos h]
  · intro hpt
    unfold nextVertex
    have hmod : (0 + 1) % WORD = 1 := by decide
    rw [hmod, if_neg (not_not_intro hpt),
        if_neg (by rintro ⟨-, h⟩; exact absurd h (by decide)),
        if_neg (by simp [hlen]), if_neg (by simp [hopen])]

/-- C6 witness: 2-point open line [(0,0),(1,0)] — sentinel index wraps to
vertex 0, actual segment index 0 at the end vertex yields absent. -/
theorem c6_witness :
    nextVertex [((0 : Int), (0 : Int)), (1, 0)] INDEX_UNKNOWN (1, 0)
      = some (getCoordinate [((0 : Int), (0 : Int)), (1, 0)] 0) ∧
    nextVertex [((0 : Int), (0 : Int)), (1, 0)] 0 (1, 0) = none :=
  ⟨(c6_sentinel_only _ (1, 0) (by decide) (by decide)).1,
   (c6_sentinel_only _ (1, 0) (by decide) (by decide)).2 (by decide)⟩

/-- C8: on a sequence with no consecutive repeated points,
`orientAndRemoveRepeated` is a no-op when the orientation already matches the
request, and otherwise reverses the point order, preserving the multiset. -/
theorem c8_orient_no_repeats (cw : Bool) (seq : List Point)
    (hrep : hasRepeatedPoints seq = false) :
    (cw ≠ isCCW seq → orientAndRemoveRepeated cw seq = seq) ∧
    (cw = isCCW seq →
      orientAndRemoveRepeated cw seq = seq.reverse ∧
      (↑(orientAndRemoveRepeated cw seq) : Multiset Point) = ↑seq) := by
  constructor
  · intro h
    have hb : (cw == isCCW seq) = false := beq_eq_false_iff_ne.mpr h
    unfold orientAndRemoveRepeated
    simp [hb, hrep]
  · intro h
    have hb : (cw == isCCW seq) = true := beq_iff_eq.mpr h
    have he : orientAndRemoveRepeated cw seq = seq.reverse := by
      unfold orientAndRemoveRepeated
      simp [hb, hrep]
    exact ⟨he, by rw [he]; exact Multiset.coe_reverse seq⟩

/-- C8 witness: the CCW square with no repeats, requested clockwise, is
exactly reversed with the same multiset of points. -/
theorem c8_witness :
    orientAndRemoveRepeated true
        [((0 : Int), (0 : Int)), (10, 0), (10, 10), (0, 10), (0, 0)]
      = [((0 : Int), (0 : Int)), (10, 0), (10, 10), (0, 10), (0, 0)].reverse ∧
    (↑(orientAndRemoveRepeated true
        [((0 : Int), (0 : Int)), (10, 0), (10, 10), (0, 10), (0, 0)]) : Multiset Point)
      = ↑[((0 : Int), (0 : Int)), (10, 0), (10, 10), (0, 10), (0, 0)] :=
  (c8_orient_no_repeats true _ (by decide)).2 (by decide)

/-- The collapsed sequence produced by `removeRepeatedPoints` on a nonempty
list starts with the original first point. -/
theorem removeRepeatedPoints_head (p : Point) (l : List Point) :
    (removeRepeatedPoints (p :: l)).head? = some p := by
  induction l generalizing p with
  | nil => rfl
  | cons q rest ih =>
      simp only [removeRepeatedPoints]
      by_cases h : p = q
      · rw [if_pos h, ih q, h]
      · rw [if_neg h]
        rfl

/-- The collapsed sequence produced by `removeRepeatedPoints` has no
consecutive repeated points. -/
theorem removeRepeatedPoints_no_repeated :
    ∀ l : List Point, hasRepeatedPoints (removeRepeatedPoints l) = false
  | [] => rfl
  | [_] => rfl
  | p :: q :: rest => by
      have ih := removeRepeatedPoints_no_repeated (q :: rest)
      by_cases h : p = q
      · simpa [removeRepeatedPoints, h] using ih
      · have hh := removeRepeatedPoints_head q rest
        obtain ⟨t, ht⟩ : ∃ t, removeRepeatedPoints (q :: rest) = q :: t := by
          cases e : removeRepeatedPoints (q :: rest) with
          | nil => rw [e] at hh; exact absurd hh (by simp)
          | cons a t =>
              rw [e] at hh
              simp only [List.head?_cons, Option.some.injEq] at hh
              exact ⟨t, by rw [hh]⟩
        simp only [removeRepeatedPoints, if_neg h, ht]
        rw [ht] at ih
        simp only [hasRepeatedPoints, ih, Bool.or_false]
        exact beq_eq_false_iff_ne.mpr h

/-- C9: `removeRepeated` is a no-op on a sequence with no consecutive
duplicates, and applying it twice gives the same active sequence as once. -/
theorem c9_removeRepeated_noop_idem (seq : List Point) :
    (hasRepeatedPoints seq = false → removeRepeated seq = seq) ∧
    removeRepeated (removeRepeated seq) = removeRepeated seq := by
  constructor
  · intro h
    simp [removeRepeated, h]
  · by_cases h : hasRepeatedPoints seq = false
    · simp [removeRepeated, h]
    · have hb : hasRepeatedPoints seq = true := by
        revert h
        cases hasRepeatedPoints seq <;> simp
      simp [removeRepeated, hb, removeRepeatedPoints_no_repeated]

/-- C9 witness: no-op on a duplicate-free 2-point line; idempotence on a line
with a leading duplicate. -/
theorem c9_witness :
    removeRepeated [((0 : Int), (0 : Int)), (1, 0)]
      = [((0 : Int), (0 : Int)), (1, 0)] ∧
    removeRepeated (removeRepeated [((0 : Int), (0 : Int)), (0, 0), (1, 0)])
      = removeRepeated [((0 : Int), (0 : Int)), (0, 0), (1, 0)] :=
  ⟨(c9_removeRepeated_noop_idem _).1 (by decide),
   (c9_removeRepeated_noop_idem _).2⟩

/-- C5: on a closed walk `prevVertex` and `nextVertex` never return absent and
`prevVertex 0 ring[0]` is the second-to-last vertex; on an open walk
`prevVertex` is absent exactly at the first vertex of segment 0 and
`nextVertex` is absent exactly at the last vertex of the final segment. -/
theorem c5_neighbor_absence (ps : List Point) (segIndex : Nat) (pt : Point)
    (hseg : segIndex + 2 ≤ ps.length) (hw : ps.length < WORD) :
    (isClosed ps = true →
      (prevVertex ps segIndex pt).isSome = true ∧
      (nextVertex ps segIndex pt).isSome = true ∧
      prevVertex ps 0 (getCoordinate ps 0)
        = some (getCoordinate ps (ps.length - 2))) ∧
    (isClosed ps = false →
      ((prevVertex ps segIndex pt = none ↔
          pt = getCoordinate ps 0 ∧ segIndex = 0) ∧
       (nextVertex ps segIndex pt = none ↔
          pt = getCoordinate ps (ps.length - 1) ∧ segIndex = ps.length - 2))) := by
  have hww : WORD = 18446744073709551616 := rfl
  have hiu : INDEX_UNKNOWN = 18446744073709551615 := rfl
  have hmod1 : (segIndex + 1) % WORD = segIndex + 1 := Nat.mod_eq_of_lt (by omega)
  have hsent : segIndex ≠ INDEX_UNKNOWN := by omega
  constructor
  · intro hcl
    refine ⟨?_, ?_, ?_⟩
    · unfold prevVertex
      split_ifs <;> simp_all
    · unfold nextVertex
      split_ifs <;> simp_all
    · unfold prevVertex
      rw [if_neg (not_not_intro rfl), if_neg (lt_irrefl 0), if_pos hcl]
      unfold prevInRing
      rw [if_pos rfl]
  · intro hop
    constructor
    · unfold prevVertex
      by_cases h1 : pt = getCoordinate ps segIndex
      · rw [if_neg (not_not_intro h1)]
        by_cases h2 : segIndex > 0
        · rw [if_pos h2]
          constructor
          · intro h
            exact absurd h (by simp)
          · rintro ⟨-, h0⟩
            omega
        · rw [if_neg h2, if_neg (by simp [hop])]
          have h0 : segIndex = 0 := by omega
          subst h0
          simp [h1]
      · rw [if_pos h1]
        constructor
        · intro h
          exact absurd h (by simp)
        · rintro ⟨hp, h0⟩
          exact absurd hp (h0 ▸ h1)
    · unfold nextVertex
      rw [hmod1]
      by_cases h1 : pt = getCoordinate ps (segIndex + 1)
      · rw [if_neg (not_not_intro h1),
            if_neg (by rintro ⟨-, hs⟩; exact hsent hs)]
        by_cases h2 : segIndex < ps.length - 2
        · rw [if_pos h2]
          constructor
          · intro h
            exact absurd h (by simp)
          · rintro ⟨-, hfin⟩
            omega
        · rw [if_neg h2, if_neg (by simp [hop])]
          have hfin : segIndex = ps.length - 2 := by omega
          have h1h : pt = getCoordinate ps (ps.length - 1) := by
            rw [h1, hfin]
            congr 1
            omega
          simp [h1h, hfin]
      · rw [if_pos h1]
        constructor
        · intro h
          exact absurd h (by simp)
        · rintro ⟨hp, hfin⟩
          have hidx : segIndex + 1 = ps.length - 1 := by omega
          rw [hidx] at h1
          exact absurd hp h1

/-- C5 witness: the closed triangle ring [(0,0),(10,0),(10,10),(0,0)] — both
neighbors resolve on segment 0, and `prevVertex 0 ring[0]` is the
second-to-last vertex. -/
theorem c5_witness :
    (prevVertex [((0 : Int), (0 : Int)), (10, 0), (10, 10), (0, 0)] 0
        (10, 0)).isSome = true ∧
    (nextVertex [((0 : Int), (0 : Int)), (10, 0), (10, 10), (0, 0)] 0
        (10, 0)).isSome = true ∧
    prevVertex [((0 : Int), (0 : Int)), (10, 0), (10, 10), (0, 0)] 0
        (getCoordinate [((0 : Int), (0 : Int)), (10, 0), (10, 10), (0, 0)] 0)
      = some (getCoordinate [((0 : Int), (0 : Int)), (10, 0), (10, 10), (0, 0)]
          ([((0 : Int), (0 : Int)), (10, 0), (10, 10), (0, 0)].length - 2)) :=
  (c5_neighbor_absence _ 0 (10, 0) (by decide) (by decide)).1 (by decide)

/-- C4: on a closed ring whose distinct vertices are pairwise different, every
distinct vertex is claimed exactly once by `isContainingSegment` across all
segments and both endpoint queries of each. -/
theorem c4_ring_vertex_claimed_once (ps : List Point)
    (hsz : 3 ≤ ps.length) (hw : ps.length < WORD)
    (hclosed : getCoordinate ps 0 = getCoordinate ps (ps.length - 1))
    (hnodup : ps.dropLast.Nodup)
    (v : Point) (hv : v ∈ ps.dropLast) :
    claimCount ps v = 1 := by
  have hww : WORD = 18446744073709551616 := rfl
  have hcl : isClosed ps = true := decide_eq_true hclosed
  have hlenDrop : ps.dropLast.length = ps.length - 1 := List.length_dropLast ps
  have hget : ∀ i, i < ps.length → getCoordinate ps i = ps.getD i (0, 0) :=
    fun i _ => rfl
  have hinj : ∀ i j, i < ps.length - 1 → j < ps.length - 1 →
      getCoordinate ps i = getCoordinate ps j → i = j := by
    intro i j hi hj hEq
    have hi2 : i < ps.dropLast.length := by omega
    have hj2 : j < ps.dropLast.length := by omega
    have hi3 : i < ps.length := by omega
    have hj3 : j < ps.length := by omega
    have hd : ps.dropLast[i] = ps.dropLast[j] := by
      rw [List.getElem_dropLast, List.getElem_dropLast]
      rw [show getCoordinate ps i = ps[i] from List.getD_eq_getElem ps (0, 0) hi3,
          show getCoordinate ps j = ps[j] from List.getD_eq_getElem ps (0, 0) hj3]
        at hEq
      exact hEq
    exact (hnodup.getElem_inj_iff).mp hd
  have hstart : ∀ i, isContainingSegment ps i (getCoordinate ps i) = true := by
    intro i
    unfold isContainingSegment
    rw [if_pos rfl]
  have hend : ∀ i, i < ps.length - 1 →
      isContainingSegment ps i (getCoordinate ps (i + 1)) = false := by
    intro i hi
    have hne : getCoordinate ps (i + 1) ≠ getCoordinate ps i := by
      by_cases hlast : i + 1 < ps.length - 1
      · intro hEq
        have := hinj (i + 1) i hlast (by omega) hEq
        omega
      · have hieq : i + 1 = ps.length - 1 := by omega
        rw [hieq, ← hclosed]
        intro hEq
        have := hinj 0 i (by omega) (by omega) hEq
        omega
    unfold isContainingSegment
    rw [if_neg hne]
    have hmod : (i + 1) % WORD = i + 1 := Nat.mod_eq_of_lt (by omega)
    rw [hmod, if_pos rfl, if_pos (Or.inl hcl)]
  have hsum : claimCount ps v
      = ∑ i ∈ Finset.range (ps.length - 1),
          (if getCoordinate ps i = v then 1 else 0) := by
    unfold claimCount
    apply Finset.sum_congr rfl
    intro i hi
    rw [Finset.mem_range] at hi
    rw [hstart i, hend i hi]
    simp
  rw [hsum]
  obtain ⟨i0, hi0, hvi0⟩ := List.mem_iff_getElem.mp hv
  have hi0L : i0 < ps.length - 1 := by omega
  have hvi0c : getCoordinate ps i0 = v := by
    rw [show getCoordinate ps i0 = ps[i0] from
        List.getD_eq_getElem ps (0, 0) (by omega),
      ← List.getElem_dropLast ps i0 hi0]
    exact hvi0
  have h1 : (∑ i ∈ Finset.range (ps.length - 1),
      (if getCoordinate ps i = v then (1 : Nat) else 0))
      = if getCoordinate ps i0 = v then 1 else 0 := by
    apply Finset.sum_eq_single
    · intro j hj hji
      rw [Finset.mem_range] at hj
      rw [if_neg]
      intro hEq
      exact hji (hinj j i0 hj hi0L (by rw [hEq]; exact hvi0c.symm))
    · intro hnot
      exact absurd (Finset.mem_range.mpr hi0L) hnot
  rw [h1, if_pos hvi0c]

/-- C4 witness: the closed triangle ring [(0,0),(10,0),(10,10),(0,0)] claims
the vertex (10,0) exactly once. -/
theorem c4_witness :
    claimCount [((0 : Int), (0 : Int)), (10, 0), (10, 10), (0, 0)] (10, 0) = 1 :=
  c4_ring_vertex_claimed_once _ (by decide) (by decide) (by decide) (by decide)
    _ (by decide)

end GeosRelate
